import Mathlib

/-!
Verification of the zone occupancy analysis engine of
`Backend/app/routes/feeds_routes.py` (`analyze_zone` and its helpers).

The embedding below translates the analysis core of `analyze_zone`
(lines 845-1014) into Lean:

* bounding boxes, cached frame detections and tracked persons become
  structures of integers, rationals and lists;
* Python floats are modelled as exact rationals (`Rat`); the quantities
  involved (IoU values, means of integer counts, timestamps) are ratios
  of machine integers, so `Rat` is the intended real-number semantics;
* the point-in-polygon test `_is_point_in_polygon` delegates to OpenCV
  (`cv2.pointPolygonTest`), an external collaborator, so it is modelled
  as an abstract boolean predicate `inPoly` on integer points that is
  passed to the analyzer as a parameter;
* `numpy` aggregate calls are modelled by their documented meaning:
  `np.mean` is the arithmetic mean, `np.max`/`np.min` are maximum and
  minimum, and `np.argmax` returns the index of the first occurrence of
  the maximum;
* `datetime.utcnow()` (the wall clock read when the result record is
  assembled) is modelled as an explicit parameter `now` to the function,
  making the clock dependency of the emitted record visible;
* the identity stamps copied verbatim from the request context
  (`zone_id`, `zone_name`, `analyzed_by`) are omitted from the result
  record: no claim concerns them and they do not affect the computation.
-/

namespace CrowdCount

/-- A detected person bounding box `[x1, y1, x2, y2]`, integer pixel
coordinates as produced by `_boxes_to_serializable`. -/
structure Box where
  x1 : Int
  y1 : Int
  x2 : Int
  y2 : Int
deriving DecidableEq, Repr

/-- One entry of `detections_cache`: a dict with keys `frame`,
`timestamp` and `boxes`, built at upload time (feeds_routes.py
lines 381-385), where the timestamp is always stored. -/
structure FrameDet where
  frame : Nat
  timestamp : Rat
  boxes : List Box
deriving DecidableEq, Repr

/-- One element of the `tracked_persons` list of `analyze_zone`
(lines 967-972). -/
structure TrackedPerson where
  id : Nat
  first_frame : Nat
  last_frame : Nat
  last_box : Box
deriving DecidableEq, Repr

/-- The `analysis_summary` record assembled at lines 997-1014, without
the request-identity stamps (`zone_id`, `zone_name`, `analyzed_by`). -/
structure AnalysisResult where
  frames_analyzed : Nat
  frame_step : Int
  fps : Rat
  duration : Rat
  avg_count : Rat
  min_count : Nat
  peak_count : Nat
  peak_time : Rat
  total_count : Nat
  total_persons_passed : Nat
  counts_per_frame : List Nat
  timestamps : List Rat
  analyzed_at : Rat
deriving DecidableEq, Repr

/-- The two analysis-level failure modes of `analyze_zone`:
`InsufficientData` is the 400 response at line 877 (empty cache) and
`NoFramesMatched` the 400 response at line 980 (no frame analyzed). -/
inductive AnalyzeError
  | InsufficientData
  | NoFramesMatched
deriving DecidableEq, Repr

/-- `iou_threshold = 0.3` (line 895). -/
def iou_threshold : Rat := 3 / 10

/-- `calculate_iou` (lines 897-916), verbatim over exact rationals. -/
def calculate_iou (box1 box2 : Box) : Rat :=
  let x_left := max box1.x1 box2.x1
  let y_top := max box1.y1 box2.y1
  let x_right := min box1.x2 box2.x2
  let y_bottom := min box1.y2 box2.y2
  if x_right < x_left ∨ y_bottom < y_top then 0
  else
    let intersection_area := (x_right - x_left) * (y_bottom - y_top)
    let box1_area := (box1.x2 - box1.x1) * (box1.y2 - box1.y1)
    let box2_area := (box2.x2 - box2.x1) * (box2.y2 - box2.y1)
    let union_area := box1_area + box2_area - intersection_area
    if 0 < union_area then (intersection_area : Rat) / (union_area : Rat)
    else 0

/-- The centroid test of lines 930-934: `cx = (x1 + x2) // 2`,
`cy = (y1 + y2) // 2` (Python floor division, hence `Int.fdiv`),
then `_is_point_in_polygon((cx, cy), polygon)`. -/
def centroid_in (inPoly : Int → Int → Bool) (b : Box) : Bool :=
  inPoly ((b.x1 + b.x2).fdiv 2) ((b.y1 + b.y2).fdiv 2)

/-- The recency test of line 950:
`person['last_frame'] >= frame_idx - 10`. -/
def isCand (frame_idx : Nat) (p : TrackedPerson) : Bool :=
  decide ((frame_idx : Int) - 10 ≤ (p.last_frame : Int))

/-- The candidate set considered for matching one box: the tracked
persons passing the recency test of line 950, in list order. -/
def candidates (frame_idx : Nat) (persons : List TrackedPerson) :
    List TrackedPerson :=
  persons.filter (isCand frame_idx)

/-- The matching loop over `tracked_persons` (lines 944-955).  The
state is `(matched, best_match_id, best_iou)`, initially
`(false, none, 0)`; a candidate strictly improving on `best_iou` while
strictly exceeding `iou_threshold` becomes the new best match. -/
def matchFold (box : Box) (frame_idx : Nat) :
    Bool × Option Nat × Rat → List TrackedPerson → Bool × Option Nat × Rat
  | st, [] => st
  | st, p :: rest =>
    if isCand frame_idx p then
      let iou := calculate_iou box p.last_box
      if iou_threshold < iou ∧ st.2.2 < iou then
        matchFold box frame_idx (true, some p.id, iou) rest
      else
        matchFold box frame_idx st rest
    else
      matchFold box frame_idx st rest

/-- The update loop of lines 959-964: find the first tracked person with
the matched id and set its `last_box` and `last_frame` to the current
box and frame. -/
def updatePerson (bid : Nat) (box : Box) (frame_idx : Nat) :
    List TrackedPerson → List TrackedPerson
  | [] => []
  | p :: rest =>
    if p.id = bid then
      { p with last_box := box, last_frame := frame_idx } :: rest
    else
      p :: updatePerson bid box frame_idx rest

/-- Processing of one in-zone box (lines 943-974): run the matching
loop; on a match update the matched person, otherwise append a new
`TrackedPerson` with id `next_person_id` and bump the counter.  (The
`current_frame_persons` list built alongside is never read afterwards
and is omitted.) -/
def trackBox (frame_idx : Nat) (st : List TrackedPerson × Nat) (box : Box) :
    List TrackedPerson × Nat :=
  let m := matchFold box frame_idx (false, none, 0) st.1
  match m.1, m.2.1 with
  | true, some bid => (updatePerson bid box frame_idx st.1, st.2)
  | _, _ =>
    (st.1 ++ [{ id := st.2, first_frame := frame_idx,
                last_frame := frame_idx, last_box := box }], st.2 + 1)

/-- The per-frame box scan of lines 928-939: count the boxes whose
centroid is in the zone and collect them, in arrival order, into
`boxes_in_zone`. -/
def collectInZone (inPoly : Int → Int → Bool) (boxes : List Box) :
    Nat × List Box :=
  boxes.foldl
    (fun acc b =>
      if centroid_in inPoly b then (acc.1 + 1, acc.2 ++ [b]) else acc)
    (0, [])

/-- One iteration of the main loop for a frame that survived the stride
filter (lines 924-974): scan the boxes, then run the tracking pass over
`boxes_in_zone` in order. -/
def processFrame (inPoly : Int → Int → Bool) (frame_idx : Nat)
    (boxes : List Box) (tracked : List TrackedPerson) (next_id : Nat) :
    Nat × List TrackedPerson × Nat :=
  let cz := collectInZone inPoly boxes
  let tn := cz.2.foldl (trackBox frame_idx) (tracked, next_id)
  (cz.1, tn.1, tn.2)

/-- The main loop of `analyze_zone` (lines 918-977): iterate the cache
in stored order, skip a frame iff `frame_step > 1` and
`frame_idx % frame_step != 0`, and for each surviving frame append its
count and timestamp while threading the tracking state.  Returns
`(counts, timestamps, tracked_persons, next_person_id)`. -/
def analyzeLoop (inPoly : Int → Int → Bool) (fs : Int) :
    List TrackedPerson → Nat → List FrameDet →
    List Nat × List Rat × List TrackedPerson × Nat
  | tracked, next_id, [] => ([], [], tracked, next_id)
  | tracked, next_id, det :: rest =>
    if 1 < fs ∧ (det.frame : Int) % fs ≠ 0 then
      analyzeLoop inPoly fs tracked next_id rest
    else
      let pr := processFrame inPoly det.frame det.boxes tracked next_id
      let r := analyzeLoop inPoly fs pr.2.1 pr.2.2 rest
      (pr.1 :: r.1, det.timestamp :: r.2.1, r.2.2.1, r.2.2.2)

/-- `np.mean` on a list of counts: the arithmetic mean. -/
def listMean (l : List Nat) : Rat := (l.sum : Rat) / (l.length : Rat)

/-- `np.max` on a non-empty list of counts. -/
def listMax : List Nat → Nat
  | [] => 0
  | x :: xs => xs.foldl max x

/-- `np.min` on a non-empty list of counts. -/
def listMin : List Nat → Nat
  | [] => 0
  | x :: xs => xs.foldl min x

/-- `np.argmax`: index of the first occurrence of `v` (used with
`v = listMax l`, matching numpy's first-maximum convention). -/
def firstIdxOf (v : Nat) : List Nat → Nat
  | [] => 0
  | x :: xs => if x = v then 0 else firstIdxOf v xs + 1

/-- The statistics and record-assembly block of `analyze_zone`
(lines 982-1014): `np.mean`, `np.max`, `np.argmax` (first maximum),
`np.min`, `total_count = peak_count`,
`total_persons_passed = len(tracked_persons)`, and the summary dict.
`now` stands for the `datetime.utcnow()` value read at assembly time
(line 1012). -/
def buildResult (fs : Int) (fps now : Rat) (counts : List Nat)
    (timestamps : List Rat) (tracked : List TrackedPerson) :
    AnalysisResult :=
  let avg_count := listMean counts
  let peak_count := listMax counts
  let peak_idx := firstIdxOf peak_count counts
  let peak_time :=
    if peak_idx < timestamps.length then timestamps.getD peak_idx 0
    else 0
  let total_detections := peak_count
  let min_count := listMin counts
  let total_persons_passed := tracked.length
  { frames_analyzed := counts.length
    frame_step := fs
    fps := fps
    duration := timestamps.getLastD 0
    avg_count := avg_count
    min_count := min_count
    peak_count := peak_count
    peak_time := peak_time
    total_count := total_detections
    total_persons_passed := total_persons_passed
    counts_per_frame := counts
    timestamps := timestamps
    analyzed_at := now }

/-- The analysis core of `analyze_zone` (lines 845-1014): coerce
`frame_step` below 1 to 1 (lines 852-853), fail on an empty cache
(lines 876-877), run the main loop, fail when no frame was analyzed
(lines 979-980), and otherwise assemble the summary record
(lines 982-1014). -/
def analyze_zone (inPoly : Int → Int → Bool)
    (detections_cache : List FrameDet) (frame_step : Int)
    (fps : Rat) (now : Rat) : Except AnalyzeError AnalysisResult :=
  let fs := if frame_step < 1 then 1 else frame_step
  if detections_cache = [] then .error .InsufficientData
  else
    let res := analyzeLoop inPoly fs [] 0 detections_cache
    if res.1 = [] then .error .NoFramesMatched
    else .ok (buildResult fs fps now res.1 res.2.1 res.2.2.1)

/-- The frames surviving the stride filter, described the way the spec
does: those whose index is divisible by the stride. -/
def keptFrames (fs : Int) (cache : List FrameDet) : List FrameDet :=
  cache.filter (fun det => decide ((det.frame : Int) % fs = 0))

/-- The per-frame occupancy the spec describes: the number of boxes of
the frame whose floor-division centroid passes the polygon test. -/
def zoneCount (inPoly : Int → Int → Bool) (det : FrameDet) : Nat :=
  (det.boxes.filter (centroid_in inPoly)).length

/-- What C2 claims of the processing of one in-zone box: when some
candidate exceeds the IoU threshold, the box is matched to a candidate
of maximal IoU and exactly that record's `last_box`/`last_frame` are
rewritten; otherwise a fresh `TrackedPerson` with the next id is
appended and the id counter bumped. -/
def TrackStepSpec (box : Box) (f : Nat) (persons : List TrackedPerson)
    (nid : Nat) : Prop :=
  ((∃ p ∈ candidates f persons,
      iou_threshold < calculate_iou box p.last_box) →
    ∃ i : Fin persons.length,
      persons.get i ∈ candidates f persons ∧
      iou_threshold < calculate_iou box (persons.get i).last_box ∧
      (∀ q ∈ candidates f persons,
        calculate_iou box q.last_box ≤
          calculate_iou box (persons.get i).last_box) ∧
      trackBox f (persons, nid) box =
        (persons.set i
          { persons.get i with last_box := box, last_frame := f }, nid)) ∧
  ((∀ p ∈ candidates f persons,
      calculate_iou box p.last_box ≤ iou_threshold) →
    trackBox f (persons, nid) box =
      (persons ++ [{ id := nid, first_frame := f, last_frame := f,
                     last_box := box }], nid + 1))

/-- What C1 claims of the aggregates of an emitted result: the mean,
extrema, first-peak timing and the `total_count = peak_count`
identification. -/
def AggregatesSpec (r : AnalysisResult) : Prop :=
  r.avg_count =
    (r.counts_per_frame.sum : Rat) / (r.counts_per_frame.length : Rat) ∧
  r.peak_count ∈ r.counts_per_frame ∧
  (∀ c ∈ r.counts_per_frame, c ≤ r.peak_count) ∧
  r.min_count ∈ r.counts_per_frame ∧
  (∀ c ∈ r.counts_per_frame, r.min_count ≤ c) ∧
  (∃ i : Fin r.counts_per_frame.length,
    r.counts_per_frame.get i = r.peak_count ∧
    r.peak_time = r.timestamps.getD (i : Nat) 0 ∧
    ∀ j, j < (i : Nat) → r.counts_per_frame.getD j 0 ≠ r.peak_count) ∧
  r.total_count = r.peak_count

/-- What C5 claims of an emitted result: counts and timestamps have
equal length, and a non-empty counts sequence realizes its maximum as
`peak_count`. -/
def LengthPeakSpec (r : AnalysisResult) : Prop :=
  r.counts_per_frame.length = r.timestamps.length ∧
  (r.counts_per_frame ≠ [] →
    r.peak_count ∈ r.counts_per_frame ∧
    ∀ c ∈ r.counts_per_frame, c ≤ r.peak_count)

/-- What C7 claims of `total_persons_passed`: non-negative, and zero
exactly when no analyzed box had its centroid inside the zone. -/
def PersonsZeroSpec (inPoly : Int → Int → Bool) (cache : List FrameDet)
    (fs : Int) (r : AnalysisResult) : Prop :=
  0 ≤ r.total_persons_passed ∧
  (r.total_persons_passed = 0 ↔
    ∀ det ∈ keptFrames fs cache, ∀ b ∈ det.boxes,
      centroid_in inPoly b = false)

/-- A cache on which the greedy tracker undercounts: frame 1 has two
boxes that both match the single person of frame 0, so
`total_persons_passed = 1` while `peak_count = 2`. -/
def undercountCache : List FrameDet :=
  [{ frame := 0, timestamp := 0, boxes := [{ x1 := 0, y1 := 0, x2 := 10, y2 := 10 }] },
   { frame := 1, timestamp := 1,
     boxes := [{ x1 := 0, y1 := 0, x2 := 10, y2 := 10 },
               { x1 := 1, y1 := 0, x2 := 10, y2 := 10 }] }]

/-- A one-frame cache with no detections, used by witnesses. -/
def emptyBoxCache : List FrameDet :=
  [{ frame := 0, timestamp := 0, boxes := [] }]

/-- The result `analyze_zone` emits on `emptyBoxCache` with stride 1,
fps 10 and clock 0, used by witnesses. -/
def emptyBoxResult : AnalysisResult :=
  { frames_analyzed := 1, frame_step := 1, fps := 10, duration := 0,
    avg_count := 0, min_count := 0, peak_count := 0, peak_time := 0,
    total_count := 0, total_persons_passed := 0, counts_per_frame := [0],
    timestamps := [0], analyzed_at := 0 }

/-- The result `analyze_zone` emits on `undercountCache` with stride 1,
fps 10 and clock 0: one tracked person, peak occupancy two. -/
def undercountResult : AnalysisResult :=
  { frames_analyzed := 2, frame_step := 1, fps := 10, duration := 1,
    avg_count := 3 / 2, min_count := 1, peak_count := 2, peak_time := 1,
    total_count := 2, total_persons_passed := 1,
    counts_per_frame := [1, 2], timestamps := [0, 1], analyzed_at := 0 }

/-- The signed area `(x2 - x1) * (y2 - y1)` of a box as the IoU code
computes it (lines 912-913). -/
def boxArea (b : Box) : Int := (b.x2 - b.x1) * (b.y2 - b.y1)

/-- The intersection area of two boxes as the IoU code computes it:
zero when the clipped rectangle has negative width or height
(lines 903-911). -/
def interArea (a b : Box) : Int :=
  if min a.x2 b.x2 < max a.x1 b.x1 ∨ min a.y2 b.y2 < max a.y1 b.y1 then 0
  else (min a.x2 b.x2 - max a.x1 b.x1) * (min a.y2 b.y2 - max a.y1 b.y1)

/-- The union area `box1_area + box2_area - intersection_area` of
line 914. -/
def unionArea (a b : Box) : Int := boxArea a + boxArea b - interArea a b

/-- The algebraic facts claimed of `calculate_iou`: symmetry, value `1`
on a positive-area box against itself, value `0` on disjoint boxes and
on zero union area, and absence of negative values. -/
def IouSpec (a b : Box) : Prop :=
  calculate_iou a b = calculate_iou b a ∧
  (0 < boxArea a → calculate_iou a a = 1) ∧
  ((min a.x2 b.x2 < max a.x1 b.x1 ∨ min a.y2 b.y2 < max a.y1 b.y1) →
    calculate_iou a b = 0) ∧
  (unionArea a b = 0 → calculate_iou a b = 0) ∧
  0 ≤ calculate_iou a b

lemma interArea_comm (a b : Box) : interArea a b = interArea b a := by
  unfold interArea
  rw [min_comm b.x2 a.x2, max_comm b.x1 a.x1, min_comm b.y2 a.y2,
    max_comm b.y1 a.y1]

lemma unionArea_comm (a b : Box) : unionArea a b = unionArea b a := by
  unfold unionArea
  rw [interArea_comm b a, add_comm (boxArea b) (boxArea a)]

lemma calculate_iou_eq (a b : Box) :
    calculate_iou a b =
      if min a.x2 b.x2 < max a.x1 b.x1 ∨ min a.y2 b.y2 < max a.y1 b.y1 then 0
      else if 0 < unionArea a b then
        (interArea a b : Rat) / (unionArea a b : Rat)
      else 0 := by
  by_cases h : min a.x2 b.x2 < max a.x1 b.x1 ∨ min a.y2 b.y2 < max a.y1 b.y1
  · simp only [calculate_iou, interArea, unionArea, boxArea, if_pos h]
  · simp only [calculate_iou, interArea, unionArea, boxArea, if_neg h]

lemma interArea_nonneg (a b : Box) : 0 ≤ interArea a b := by
  unfold interArea
  by_cases h : min a.x2 b.x2 < max a.x1 b.x1 ∨ min a.y2 b.y2 < max a.y1 b.y1
  · rw [if_pos h]
  · push_neg at h
    rw [if_neg (by push_neg; exact h)]
    exact mul_nonneg (by omega) (by omega)

lemma calculate_iou_comm (a b : Box) :
    calculate_iou a b = calculate_iou b a := by
  rw [calculate_iou_eq, calculate_iou_eq, min_comm b.x2 a.x2,
    max_comm b.x1 a.x1, min_comm b.y2 a.y2, max_comm b.y1 a.y1,
    interArea_comm b a, unionArea_comm b a]

lemma calculate_iou_self (a : Box) (hax : a.x1 ≤ a.x2) (hay : a.y1 ≤ a.y2)
    (h : 0 < boxArea a) : calculate_iou a a = 1 := by
  have hguard : ¬(min a.x2 a.x2 < max a.x1 a.x1 ∨
      min a.y2 a.y2 < max a.y1 a.y1) := by
    simp only [min_self, max_self]
    omega
  have hinter : interArea a a = boxArea a := by
    unfold interArea boxArea
    rw [if_neg hguard]
    simp [min_self, max_self]
  have hunion : unionArea a a = boxArea a := by
    unfold unionArea
    rw [hinter]; ring
  rw [calculate_iou_eq, if_neg hguard, hunion, hinter, if_pos h]
  rw [div_self]
  exact_mod_cast h.ne'

lemma calculate_iou_nonneg (a b : Box) : 0 ≤ calculate_iou a b := by
  rw [calculate_iou_eq]
  by_cases h : min a.x2 b.x2 < max a.x1 b.x1 ∨ min a.y2 b.y2 < max a.y1 b.y1
  · rw [if_pos h]
  · rw [if_neg h]
    by_cases hu : 0 < unionArea a b
    · rw [if_pos hu]
      apply div_nonneg
      · exact_mod_cast interArea_nonneg a b
      · exact_mod_cast hu.le
    · rw [if_neg hu]

/-- C8: `calculate_iou` is symmetric, equals `1` on any positive-area
box paired with itself, returns `0` on non-overlapping boxes and on
zero union area, and never returns a negative value. -/
theorem iou_algebraic_facts (a b : Box)
    (hax : a.x1 ≤ a.x2) (hay : a.y1 ≤ a.y2)
    (_hbx : b.x1 ≤ b.x2) (_hby : b.y1 ≤ b.y2) : IouSpec a b := by
  refine ⟨calculate_iou_comm a b, calculate_iou_self a hax hay, ?_, ?_,
    calculate_iou_nonneg a b⟩
  · intro h
    rw [calculate_iou_eq, if_pos h]
  · intro h
    rw [calculate_iou_eq]
    by_cases hg : min a.x2 b.x2 < max a.x1 b.x1 ∨ min a.y2 b.y2 < max a.y1 b.y1
    · rw [if_pos hg]
    · rw [if_neg hg, if_neg (by omega)]

lemma iou_threshold_pos : 0 < iou_threshold := by
  norm_num [iou_threshold]

/-- Joint characterization of the matching loop: the final state is
either the initial one or records a candidate above the threshold;
`best_iou` never decreases; every candidate is either below the
threshold or below the final `best_iou`; `matched` is monotone and is
set whenever some candidate exceeds the threshold. -/
lemma matchFold_char (box : Box) (f : Nat) (l : List TrackedPerson) :
    ∀ st : Bool × Option Nat × Rat, (st.1 = false → st.2.2 = 0) →
      (matchFold box f st l = st ∨
        ∃ p ∈ l, isCand f p = true ∧
          matchFold box f st l =
            (true, some p.id, calculate_iou box p.last_box) ∧
          iou_threshold < calculate_iou box p.last_box) ∧
      st.2.2 ≤ (matchFold box f st l).2.2 ∧
      (∀ q ∈ l, isCand f q = true →
        calculate_iou box q.last_box ≤ iou_threshold ∨
        calculate_iou box q.last_box ≤ (matchFold box f st l).2.2) ∧
      (st.1 = true → (matchFold box f st l).1 = true) ∧
      ((∃ q ∈ l, isCand f q = true ∧
          iou_threshold < calculate_iou box q.last_box) →
        (matchFold box f st l).1 = true) := by
  induction l with
  | nil =>
    intro st _
    refine ⟨Or.inl rfl, le_refl _, ?_, fun h => h, ?_⟩
    · intro q hq _
      exact absurd hq (List.not_mem_nil q)
    · rintro ⟨q, hq, -⟩
      exact absurd hq (List.not_mem_nil q)
  | cons p rest ih =>
    intro st hst
    by_cases hc : isCand f p = true
    · by_cases hcond : iou_threshold < calculate_iou box p.last_box ∧
        st.2.2 < calculate_iou box p.last_box
      · obtain ⟨ih1, ih2, ih3, ih4, ih5⟩ :=
          ih (true, some p.id, calculate_iou box p.last_box) (by simp)
        simp only [matchFold]
        rw [if_pos hc, if_pos hcond]
        refine ⟨?_, le_trans hcond.2.le ih2, ?_, fun _ => ih4 rfl,
          fun _ => ih4 rfl⟩
        · rcases ih1 with h | ⟨p2, hp2, hc2, he2, hgt2⟩
          · exact Or.inr ⟨p, List.mem_cons_self p rest, hc, by rw [h],
              hcond.1⟩
          · exact Or.inr ⟨p2, List.mem_cons_of_mem p hp2, hc2, he2, hgt2⟩
        · intro q hq hcq
          rcases List.mem_cons.mp hq with h | h
          · subst h
            exact Or.inr ih2
          · exact ih3 q h hcq
      · obtain ⟨ih1, ih2, ih3, ih4, ih5⟩ := ih st hst
        simp only [matchFold]
        rw [if_pos hc, if_neg hcond]
        refine ⟨?_, ih2, ?_, ih4, ?_⟩
        · rcases ih1 with h | ⟨p2, hp2, hc2, he2, hgt2⟩
          · exact Or.inl h
          · exact Or.inr ⟨p2, List.mem_cons_of_mem p hp2, hc2, he2, hgt2⟩
        · intro q hq hcq
          rcases List.mem_cons.mp hq with h | h
          · subst h
            rcases not_and_or.mp hcond with h1 | h1
            · exact Or.inl (not_lt.mp h1)
            · exact Or.inr (le_trans (not_lt.mp h1) ih2)
          · exact ih3 q h hcq
        · rintro ⟨q, hq, hcq, hgtq⟩
          rcases List.mem_cons.mp hq with h | h
          · subst h
            rcases not_and_or.mp hcond with h1 | h1
            · exact absurd hgtq h1
            · cases hb : st.1 with
              | true => exact ih4 hb
              | false =>
                exfalso
                have h0 : st.2.2 = 0 := hst hb
                have hle : calculate_iou box q.last_box ≤ 0 :=
                  h0 ▸ not_lt.mp h1
                have hpos : 0 < calculate_iou box q.last_box :=
                  lt_trans iou_threshold_pos hgtq
                exact absurd hpos (not_lt.mpr hle)
          · exact ih5 ⟨q, h, hcq, hgtq⟩
    · obtain ⟨ih1, ih2, ih3, ih4, ih5⟩ := ih st hst
      simp only [matchFold]
      rw [if_neg hc]
      refine ⟨?_, ih2, ?_, ih4, ?_⟩
      · rcases ih1 with h | ⟨p2, hp2, hc2, he2, hgt2⟩
        · exact Or.inl h
        · exact Or.inr ⟨p2, List.mem_cons_of_mem p hp2, hc2, he2, hgt2⟩
      · intro q hq hcq
        rcases List.mem_cons.mp hq with h | h
        · subst h
          exact absurd hcq hc
        · exact ih3 q h hcq
      · rintro ⟨q, hq, hcq, hgtq⟩
        rcases List.mem_cons.mp hq with h | h
        · subst h
          exact absurd hcq hc
        · exact ih5 ⟨q, h, hcq, hgtq⟩

lemma trackBox_of_matchFold_some (box : Box) (f : Nat)
    (persons : List TrackedPerson) (nid bid : Nat) (iou : Rat)
    (he : matchFold box f (false, none, 0) persons = (true, some bid, iou)) :
    trackBox f (persons, nid) box = (updatePerson bid box f persons, nid) := by
  simp only [trackBox]
  rw [he]

lemma trackBox_of_matchFold_none (box : Box) (f : Nat)
    (persons : List TrackedPerson) (nid : Nat)
    (he : matchFold box f (false, none, 0) persons = (false, none, 0)) :
    trackBox f (persons, nid) box =
      (persons ++ [{ id := nid, first_frame := f, last_frame := f,
                     last_box := box }], nid + 1) := by
  simp only [trackBox]
  rw [he]

/-- When some candidate beats the threshold, `trackBox` updates a
candidate of maximal IoU in place. -/
lemma trackBox_match (box : Box) (f : Nat) (persons : List TrackedPerson)
    (nid : Nat)
    (h : ∃ p ∈ candidates f persons,
      iou_threshold < calculate_iou box p.last_box) :
    ∃ p ∈ persons, isCand f p = true ∧
      iou_threshold < calculate_iou box p.last_box ∧
      (∀ q ∈ candidates f persons,
        calculate_iou box q.last_box ≤ calculate_iou box p.last_box) ∧
      trackBox f (persons, nid) box =
        (updatePerson p.id box f persons, nid) := by
  obtain ⟨p0, hp0, hgt0⟩ := h
  have hmem := List.mem_filter.mp hp0
  obtain ⟨ch1, -, ch3, -, ch5⟩ :=
    matchFold_char box f persons (false, none, 0) (by simp)
  have hm1 : (matchFold box f (false, none, 0) persons).1 = true :=
    ch5 ⟨p0, hmem.1, hmem.2, hgt0⟩
  rcases ch1 with he | ⟨p, hp, hcp, he, hgt⟩
  · rw [he] at hm1
    exact absurd hm1 (by simp)
  · refine ⟨p, hp, hcp, hgt, ?_, trackBox_of_matchFold_some box f persons
      nid p.id (calculate_iou box p.last_box) he⟩
    intro q hq
    have hq2 := List.mem_filter.mp hq
    rcases ch3 q hq2.1 hq2.2 with h1 | h1
    · exact le_trans h1 hgt.le
    · rw [he] at h1
      exact h1

/-- When no candidate beats the threshold, `trackBox` appends a fresh
person carrying the next id. -/
lemma trackBox_nomatch (box : Box) (f : Nat) (persons : List TrackedPerson)
    (nid : Nat)
    (h : ∀ p ∈ candidates f persons,
      calculate_iou box p.last_box ≤ iou_threshold) :
    trackBox f (persons, nid) box =
      (persons ++ [{ id := nid, first_frame := f, last_frame := f,
                     last_box := box }], nid + 1) := by
  obtain ⟨ch1, -, -, -, -⟩ :=
    matchFold_char box f persons (false, none, 0) (by simp)
  rcases ch1 with he | ⟨p, hp, hcp, he, hgt⟩
  · exact trackBox_of_matchFold_none box f persons nid he
  · exfalso
    have hcand : p ∈ candidates f persons := List.mem_filter.mpr ⟨hp, hcp⟩
    exact absurd hgt (not_lt.mpr (h p hcand))

lemma updatePerson_map_id (bid : Nat) (box : Box) (f : Nat)
    (l : List TrackedPerson) :
    (updatePerson bid box f l).map TrackedPerson.id =
      l.map TrackedPerson.id := by
  induction l with
  | nil => rfl
  | cons p rest ih =>
    simp only [updatePerson]
    by_cases h : p.id = bid
    · rw [if_pos h]
      simp only [List.map_cons]
    · rw [if_neg h]
      simp only [List.map_cons, ih]

lemma updatePerson_set_aux (box : Box) (f : Nat) :
    ∀ (l : List TrackedPerson) (off i : Nat) (hi : i < l.length),
      (∀ (j : Nat) (hj : j < l.length), (l.get ⟨j, hj⟩).id = off + j) →
      updatePerson (off + i) box f l =
        l.set i { l.get ⟨i, hi⟩ with last_box := box, last_frame := f } := by
  intro l
  induction l with
  | nil =>
    intro off i hi _
    exact absurd hi (Nat.not_lt_zero i)
  | cons p rest ih =>
    intro off i hi hid
    cases i with
    | zero =>
      have h0 : p.id = off + 0 := hid 0 hi
      simp only [updatePerson]
      rw [if_pos h0]
      rfl
    | succ k =>
      have hk : k < rest.length := by
        have := hi
        simp only [List.length_cons] at this
        omega
      have hpne : p.id ≠ off + (k + 1) := by
        have h0 : p.id = off + 0 := hid 0 (by simp)
        omega
      have hrest : ∀ (j : Nat) (hj : j < rest.length),
          (rest.get ⟨j, hj⟩).id = (off + 1) + j := by
        intro j hj
        have hj2 : j + 1 < (p :: rest).length := by
          simp only [List.length_cons]
          omega
        have := hid (j + 1) hj2
        have hgets : ((p :: rest).get ⟨j + 1, hj2⟩) = rest.get ⟨j, hj⟩ := rfl
        rw [hgets] at this
        omega
      have harg : off + (k + 1) = (off + 1) + k := by omega
      simp only [updatePerson]
      rw [if_neg hpne]
      have hset : (p :: rest).set (k + 1)
          { (p :: rest).get ⟨k + 1, hi⟩ with
            last_box := box, last_frame := f } =
          p :: rest.set k
            { rest.get ⟨k, hk⟩ with last_box := box, last_frame := f } := rfl
      rw [hset, harg, ih (off + 1) k hk hrest]

lemma updatePerson_length (bid : Nat) (box : Box) (f : Nat)
    (l : List TrackedPerson) :
    (updatePerson bid box f l).length = l.length := by
  have h := congrArg List.length (updatePerson_map_id bid box f l)
  simpa using h

/-- `trackBox` either updates in place (only possible on a non-empty
person list) or appends a fresh person. -/
lemma trackBox_shape (f : Nat) (persons : List TrackedPerson) (nid : Nat)
    (b : Box) :
    (∃ bid, persons ≠ [] ∧
      trackBox f (persons, nid) b = (updatePerson bid b f persons, nid)) ∨
    trackBox f (persons, nid) b =
      (persons ++ [{ id := nid, first_frame := f, last_frame := f,
                     last_box := b }], nid + 1) := by
  rcases hm : matchFold b f (false, none, 0) persons with ⟨m1, m2, m3⟩
  cases m1 with
  | true =>
    cases m2 with
    | some bid =>
      refine Or.inl ⟨bid, ?_, trackBox_of_matchFold_some b f persons nid
        bid m3 hm⟩
      intro hnil
      subst hnil
      simp [matchFold] at hm
    | none =>
      right
      simp only [trackBox]
      rw [hm]
  | false =>
    right
    simp only [trackBox]
    rw [hm]

lemma trackBox_fst_ne_nil (f : Nat) (persons : List TrackedPerson)
    (nid : Nat) (b : Box) : (trackBox f (persons, nid) b).1 ≠ [] := by
  rcases trackBox_shape f persons nid b with ⟨bid, hne, he⟩ | he
  · rw [he]
    intro hc
    apply hne
    apply List.length_eq_zero.mp
    rw [← updatePerson_length bid b f persons]
    exact congrArg List.length hc
  · rw [he]
    simp

lemma trackBox_ids (f : Nat) (box : Box) (persons : List TrackedPerson)
    (nid : Nat) (h : persons.map TrackedPerson.id = List.range nid) :
    (trackBox f (persons, nid) box).1.map TrackedPerson.id =
      List.range (trackBox f (persons, nid) box).2 := by
  rcases trackBox_shape f persons nid box with ⟨bid, -, he⟩ | he
  · rw [he]
    simpa [updatePerson_map_id] using h
  · rw [he]
    simp [List.map_append, h, List.range_succ]

lemma foldl_trackBox_ids (f : Nat) :
    ∀ (boxes : List Box) (persons : List TrackedPerson) (nid : Nat),
      persons.map TrackedPerson.id = List.range nid →
      ((boxes.foldl (trackBox f) (persons, nid)).1.map TrackedPerson.id =
        List.range (boxes.foldl (trackBox f) (persons, nid)).2) := by
  intro boxes
  induction boxes with
  | nil =>
    intro persons nid h
    simpa using h
  | cons b bs ih =>
    intro persons nid h
    rcases htb : trackBox f (persons, nid) b with ⟨p2, n2⟩
    have h1 := trackBox_ids f b persons nid h
    rw [htb] at h1
    simp only [List.foldl_cons, htb]
    exact ih p2 n2 h1

lemma foldl_trackBox_ne (f : Nat) :
    ∀ (bs : List Box) (persons : List TrackedPerson) (nid : Nat),
      persons ≠ [] ∨ bs ≠ [] →
      (bs.foldl (trackBox f) (persons, nid)).1 ≠ [] := by
  intro bs
  induction bs with
  | nil =>
    intro persons nid h
    rcases h with h | h
    · simpa using h
    · exact absurd rfl h
  | cons b bs ih =>
    intro persons nid _
    rcases htb : trackBox f (persons, nid) b with ⟨p2, n2⟩
    have hne2 : p2 ≠ [] := by
      have h2 := trackBox_fst_ne_nil f persons nid b
      rw [htb] at h2
      exact h2
    simp only [List.foldl_cons, htb]
    exact ih p2 n2 (Or.inl hne2)

lemma keptFrames_nil (fs : Int) : keptFrames fs [] = [] := rfl

lemma keptFrames_cons (fs : Int) (det : FrameDet) (rest : List FrameDet) :
    keptFrames fs (det :: rest) =
      if (det.frame : Int) % fs = 0 then det :: keptFrames fs rest
      else keptFrames fs rest := by
  unfold keptFrames
  rw [List.filter_cons]
  simp only [decide_eq_true_eq]

lemma keptFrames_cons_skip (fs : Int) (det : FrameDet)
    (rest : List FrameDet) (h : (det.frame : Int) % fs ≠ 0) :
    keptFrames fs (det :: rest) = keptFrames fs rest := by
  rw [keptFrames_cons, if_neg h]

lemma keptFrames_cons_keep (fs : Int) (det : FrameDet)
    (rest : List FrameDet) (h : (det.frame : Int) % fs = 0) :
    keptFrames fs (det :: rest) = det :: keptFrames fs rest := by
  rw [keptFrames_cons, if_pos h]

/-- The no-skip branch condition implies divisibility once the coerced
stride is at least 1. -/
lemma mod_zero_of_not_skip (fs : Int) (hfs : 1 ≤ fs) (n : Int)
    (h : ¬(1 < fs ∧ n % fs ≠ 0)) : n % fs = 0 := by
  push_neg at h
  rcases lt_or_eq_of_le hfs with h1 | h1
  · exact h h1
  · rw [← h1]
    exact Int.emod_one n

lemma collectInZone_eq (inPoly : Int → Int → Bool) (boxes : List Box) :
    collectInZone inPoly boxes =
      ((boxes.filter (centroid_in inPoly)).length,
        boxes.filter (centroid_in inPoly)) := by
  suffices h : ∀ (n : Nat) (acc : List Box),
      boxes.foldl
        (fun acc b =>
          if centroid_in inPoly b then (acc.1 + 1, acc.2 ++ [b]) else acc)
        (n, acc) =
      (n + (boxes.filter (centroid_in inPoly)).length,
        acc ++ boxes.filter (centroid_in inPoly)) by
    have h0 := h 0 []
    simpa [collectInZone] using h0
  induction boxes with
  | nil =>
    intro n acc
    simp
  | cons b bs ih =>
    intro n acc
    by_cases hb : centroid_in inPoly b = true
    · simp only [List.foldl_cons, if_pos hb]
      rw [ih (n + 1) (acc ++ [b])]
      have hf : (b :: bs).filter (centroid_in inPoly) =
          b :: bs.filter (centroid_in inPoly) := by
        simp [List.filter_cons, hb]
      rw [hf]
      simp only [Prod.mk.injEq]
      constructor
      · simp only [List.length_cons]
        omega
      · simp [List.append_assoc]
    · have hb2 : centroid_in inPoly b = false := by
        cases hcb : centroid_in inPoly b with
        | true => exact absurd hcb hb
        | false => rfl
      simp only [List.foldl_cons, if_neg hb]
      rw [ih n acc]
      have hf : (b :: bs).filter (centroid_in inPoly) =
          bs.filter (centroid_in inPoly) := by
        simp [List.filter_cons, hb2]
      rw [hf]

/-- The counts and timestamps the main loop emits are exactly the
per-frame zone counts and stored timestamps of the frames surviving
the stride filter, in stored order. -/
lemma analyzeLoop_counts (inPoly : Int → Int → Bool) (fs : Int)
    (hfs : 1 ≤ fs) :
    ∀ (cache : List FrameDet) (persons : List TrackedPerson) (nid : Nat),
      (analyzeLoop inPoly fs persons nid cache).1 =
        (keptFrames fs cache).map (zoneCount inPoly) ∧
      (analyzeLoop inPoly fs persons nid cache).2.1 =
        (keptFrames fs cache).map FrameDet.timestamp := by
  intro cache
  induction cache with
  | nil =>
    intro persons nid
    exact ⟨rfl, rfl⟩
  | cons det rest ih =>
    intro persons nid
    by_cases hskip : 1 < fs ∧ (det.frame : Int) % fs ≠ 0
    · rw [keptFrames_cons_skip fs det rest hskip.2]
      simp only [analyzeLoop, if_pos hskip]
      exact ih persons nid
    · have hmod : (det.frame : Int) % fs = 0 :=
        mod_zero_of_not_skip fs hfs det.frame hskip
      rw [keptFrames_cons_keep fs det rest hmod]
      simp only [analyzeLoop, if_neg hskip, List.map_cons]
      obtain ⟨ih1, ih2⟩ :=
        ih (processFrame inPoly det.frame det.boxes persons nid).2.1
          (processFrame inPoly det.frame det.boxes persons nid).2.2
      have hpr1 : (processFrame inPoly det.frame det.boxes persons nid).1 =
          zoneCount inPoly det := by
        simp [processFrame, collectInZone_eq, zoneCount]
      constructor
      · rw [hpr1, ih1]
      · rw [ih2]

/-- The ids of the tracked persons are always `0, 1, ..., next_id - 1`
when the loop starts that way. -/
lemma analyzeLoop_ids (inPoly : Int → Int → Bool) (fs : Int) :
    ∀ (cache : List FrameDet) (persons : List TrackedPerson) (nid : Nat),
      persons.map TrackedPerson.id = List.range nid →
      ((analyzeLoop inPoly fs persons nid cache).2.2.1.map
          TrackedPerson.id =
        List.range (analyzeLoop inPoly fs persons nid cache).2.2.2) := by
  intro cache
  induction cache with
  | nil =>
    intro persons nid h
    simpa using h
  | cons det rest ih =>
    intro persons nid h
    by_cases hskip : 1 < fs ∧ (det.frame : Int) % fs ≠ 0
    · simp only [analyzeLoop, if_pos hskip]
      exact ih persons nid h
    · simp only [analyzeLoop, if_neg hskip]
      have hp : ((processFrame inPoly det.frame det.boxes persons
            nid).2.1.map TrackedPerson.id) =
          List.range (processFrame inPoly det.frame det.boxes persons
            nid).2.2 := by
        simp only [processFrame]
        exact foldl_trackBox_ids det.frame _ persons nid h
      exact ih _ _ hp

/-- Once the tracked-person list is non-empty it stays non-empty. -/
lemma analyzeLoop_tracked_mono (inPoly : Int → Int → Bool) (fs : Int) :
    ∀ (cache : List FrameDet) (persons : List TrackedPerson) (nid : Nat),
      persons ≠ [] →
      (analyzeLoop inPoly fs persons nid cache).2.2.1 ≠ [] := by
  intro cache
  induction cache with
  | nil =>
    intro persons nid h
    simpa using h
  | cons det rest ih =>
    intro persons nid h
    by_cases hskip : 1 < fs ∧ (det.frame : Int) % fs ≠ 0
    · simp only [analyzeLoop, if_pos hskip]
      exact ih persons nid h
    · simp only [analyzeLoop, if_neg hskip]
      apply ih
      by_cases hz : (collectInZone inPoly det.boxes).2 = []
      · simp only [processFrame, hz, List.foldl_nil]
        exact h
      · simp only [processFrame]
        exact foldl_trackBox_ne det.frame _ persons nid (Or.inl h)

/-- If some surviving frame has an in-zone box, the final
tracked-person list is non-empty. -/
lemma analyzeLoop_tracked_ne (inPoly : Int → Int → Bool) (fs : Int)
    (hfs : 1 ≤ fs) :
    ∀ (cache : List FrameDet) (persons : List TrackedPerson) (nid : Nat)
      (det0 : FrameDet), det0 ∈ keptFrames fs cache →
      det0.boxes.filter (centroid_in inPoly) ≠ [] →
      (analyzeLoop inPoly fs persons nid cache).2.2.1 ≠ [] := by
  intro cache
  induction cache with
  | nil =>
    intro persons nid det0 hmem _
    exact absurd hmem (List.not_mem_nil det0)
  | cons det rest ih =>
    intro persons nid det0 hmem hfil
    by_cases hskip : 1 < fs ∧ (det.frame : Int) % fs ≠ 0
    · rw [keptFrames_cons_skip fs det rest hskip.2] at hmem
      simp only [analyzeLoop, if_pos hskip]
      exact ih persons nid det0 hmem hfil
    · have hmod : (det.frame : Int) % fs = 0 :=
        mod_zero_of_not_skip fs hfs det.frame hskip
      rw [keptFrames_cons_keep fs det rest hmod] at hmem
      simp only [analyzeLoop, if_neg hskip]
      rcases List.mem_cons.mp hmem with heq | hmem2
      · subst heq
        apply analyzeLoop_tracked_mono inPoly fs rest
        simp only [processFrame, collectInZone_eq]
        exact foldl_trackBox_ne det0.frame _ persons nid (Or.inr hfil)
      · exact ih _ _ det0 hmem2 hfil

/-- If no surviving frame has an in-zone box, the tracking state is
never touched. -/
lemma analyzeLoop_tracked_const (inPoly : Int → Int → Bool) (fs : Int)
    (hfs : 1 ≤ fs) :
    ∀ (cache : List FrameDet) (persons : List TrackedPerson) (nid : Nat),
      (∀ det ∈ keptFrames fs cache,
        det.boxes.filter (centroid_in inPoly) = []) →
      (analyzeLoop inPoly fs persons nid cache).2.2.1 = persons := by
  intro cache
  induction cache with
  | nil =>
    intro persons nid _
    rfl
  | cons det rest ih =>
    intro persons nid hall
    by_cases hskip : 1 < fs ∧ (det.frame : Int) % fs ≠ 0
    · rw [keptFrames_cons_skip fs det rest hskip.2] at hall
      simp only [analyzeLoop, if_pos hskip]
      exact ih persons nid hall
    · have hmod : (det.frame : Int) % fs = 0 :=
        mod_zero_of_not_skip fs hfs det.frame hskip
      rw [keptFrames_cons_keep fs det rest hmod] at hall
      simp only [analyzeLoop, if_neg hskip]
      have hdet : det.boxes.filter (centroid_in inPoly) = [] :=
        hall det (List.mem_cons_self det _)
      have hp1 : (processFrame inPoly det.frame det.boxes persons
          nid).2.1 = persons := by
        simp [processFrame, collectInZone_eq, hdet]
      have hp2 : (processFrame inPoly det.frame det.boxes persons
          nid).2.2 = nid := by
        simp [processFrame, collectInZone_eq, hdet]
      rw [hp1, hp2]
      exact ih persons nid (fun d hd => hall d (List.mem_cons_of_mem det hd))

/-- Inversion of a successful analysis: the cache is non-empty, some
frame survived, and the result is the assembled record of the loop
outputs. -/
lemma analyze_zone_ok_inv (inPoly : Int → Int → Bool)
    (cache : List FrameDet) (step : Int) (fps now : Rat)
    (r : AnalysisResult)
    (h : analyze_zone inPoly cache step fps now = Except.ok r) :
    cache ≠ [] ∧
    (analyzeLoop inPoly (if step < 1 then 1 else step) [] 0 cache).1 ≠ [] ∧
    r = buildResult (if step < 1 then 1 else step) fps now
        (analyzeLoop inPoly (if step < 1 then 1 else step) [] 0 cache).1
        (analyzeLoop inPoly (if step < 1 then 1 else step) [] 0 cache).2.1
        (analyzeLoop inPoly (if step < 1 then 1 else step) [] 0
          cache).2.2.1 := by
  by_cases h1 : cache = []
  · simp only [analyze_zone, if_pos h1] at h
    exact absurd h (by simp)
  · simp only [analyze_zone, if_neg h1] at h
    by_cases h2 :
        (analyzeLoop inPoly (if step < 1 then 1 else step) [] 0 cache).1 = []
    · rw [if_pos h2] at h
      simp at h
    · rw [if_neg h2] at h
      exact ⟨h1, h2, (Except.ok.inj h).symm⟩

lemma foldl_max_facts :
    ∀ (xs : List Nat) (a : Nat),
      (xs.foldl max a = a ∨ xs.foldl max a ∈ xs) ∧
      a ≤ xs.foldl max a ∧ ∀ y ∈ xs, y ≤ xs.foldl max a := by
  intro xs
  induction xs with
  | nil =>
    intro a
    refine ⟨Or.inl rfl, le_refl a, ?_⟩
    intro y hy
    exact absurd hy (List.not_mem_nil y)
  | cons x xs ih =>
    intro a
    obtain ⟨ih1, ih2, ih3⟩ := ih (max a x)
    refine ⟨?_, le_trans (le_max_left a x) ih2, ?_⟩
    · rcases ih1 with h | h
      · rcases max_choice a x with hm | hm
        · left
          rw [List.foldl_cons, h, hm]
        · right
          rw [List.foldl_cons, h, hm]
          exact List.mem_cons_self x xs
      · right
        rw [List.foldl_cons]
        exact List.mem_cons_of_mem x h
    · intro y hy
      rcases List.mem_cons.mp hy with h | h
      · subst h
        rw [List.foldl_cons]
        exact le_trans (le_max_right a y) ih2
      · rw [List.foldl_cons]
        exact ih3 y h

lemma foldl_min_facts :
    ∀ (xs : List Nat) (a : Nat),
      (xs.foldl min a = a ∨ xs.foldl min a ∈ xs) ∧
      xs.foldl min a ≤ a ∧ ∀ y ∈ xs, xs.foldl min a ≤ y := by
  intro xs
  induction xs with
  | nil =>
    intro a
    refine ⟨Or.inl rfl, le_refl a, ?_⟩
    intro y hy
    exact absurd hy (List.not_mem_nil y)
  | cons x xs ih =>
    intro a
    obtain ⟨ih1, ih2, ih3⟩ := ih (min a x)
    refine ⟨?_, le_trans ih2 (min_le_left a x), ?_⟩
    · rcases ih1 with h | h
      · rcases min_choice a x with hm | hm
        · left
          rw [List.foldl_cons, h, hm]
        · right
          rw [List.foldl_cons, h, hm]
          exact List.mem_cons_self x xs
      · right
        rw [List.foldl_cons]
        exact List.mem_cons_of_mem x h
    · intro y hy
      rcases List.mem_cons.mp hy with h | h
      · subst h
        rw [List.foldl_cons]
        exact le_trans ih2 (min_le_right a y)
      · rw [List.foldl_cons]
        exact ih3 y h

lemma listMax_spec (l : List Nat) (h : l ≠ []) :
    listMax l ∈ l ∧ ∀ c ∈ l, c ≤ listMax l := by
  cases l with
  | nil => exact absurd rfl h
  | cons x xs =>
    obtain ⟨h1, h2, h3⟩ := foldl_max_facts xs x
    constructor
    · rcases h1 with hh | hh
      · show xs.foldl max x ∈ x :: xs
        rw [hh]
        exact List.mem_cons_self x xs
      · exact List.mem_cons_of_mem x hh
    · intro c hc
      rcases List.mem_cons.mp hc with hh | hh
      · subst hh
        exact h2
      · exact h3 c hh

lemma listMin_spec (l : List Nat) (h : l ≠ []) :
    listMin l ∈ l ∧ ∀ c ∈ l, listMin l ≤ c := by
  cases l with
  | nil => exact absurd rfl h
  | cons x xs =>
    obtain ⟨h1, h2, h3⟩ := foldl_min_facts xs x
    constructor
    · rcases h1 with hh | hh
      · show xs.foldl min x ∈ x :: xs
        rw [hh]
        exact List.mem_cons_self x xs
      · exact List.mem_cons_of_mem x hh
    · intro c hc
      rcases List.mem_cons.mp hc with hh | hh
      · subst hh
        exact h2
      · exact h3 c hh

lemma firstIdxOf_spec (v : Nat) :
    ∀ (l : List Nat), v ∈ l →
      firstIdxOf v l < l.length ∧ l.getD (firstIdxOf v l) 0 = v ∧
      ∀ j, j < firstIdxOf v l → l.getD j 0 ≠ v := by
  intro l
  induction l with
  | nil =>
    intro h
    exact absurd h (List.not_mem_nil v)
  | cons x xs ih =>
    intro hv
    by_cases hx : x = v
    · simp only [firstIdxOf, if_pos hx]
      refine ⟨by simp, ?_, ?_⟩
      · simpa using hx
      · intro j hj
        exact absurd hj (Nat.not_lt_zero j)
    · have hvxs : v ∈ xs := by
        rcases List.mem_cons.mp hv with hh | hh
        · exact absurd hh.symm hx
        · exact hh
      obtain ⟨ih1, ih2, ih3⟩ := ih hvxs
      simp only [firstIdxOf, if_neg hx]
      refine ⟨?_, ?_, ?_⟩
      · simp only [List.length_cons]
        omega
      · simpa using ih2
      · intro j hj
        cases j with
        | zero =>
          simpa using hx
        | succ k =>
          have hk : k < firstIdxOf v xs := by omega
          simpa using ih3 k hk

/-- Witness for C8 at the boxes `(0,0,2,2)` and `(1,1,3,3)`. -/
theorem iou_algebraic_facts_witness :
    ((Box.mk 0 0 2 2).x1 ≤ (Box.mk 0 0 2 2).x2 ∧
     (Box.mk 0 0 2 2).y1 ≤ (Box.mk 0 0 2 2).y2 ∧
     (Box.mk 1 1 3 3).x1 ≤ (Box.mk 1 1 3 3).x2 ∧
     (Box.mk 1 1 3 3).y1 ≤ (Box.mk 1 1 3 3).y2) ∧
    IouSpec (Box.mk 0 0 2 2) (Box.mk 1 1 3 3) :=
  ⟨by decide,
   iou_algebraic_facts (Box.mk 0 0 2 2) (Box.mk 1 1 3 3)
     (by decide) (by decide) (by decide) (by decide)⟩

/-- Every emitted record satisfies the aggregate identities, given a
non-empty counts sequence and matching timestamp length. -/
lemma buildResult_aggregates (fs : Int) (fps now : Rat)
    (counts : List Nat) (timestamps : List Rat)
    (tracked : List TrackedPerson) (hne : counts ≠ [])
    (hlen : counts.length = timestamps.length) :
    AggregatesSpec (buildResult fs fps now counts timestamps tracked) := by
  obtain ⟨hmax_mem, hmax_ub⟩ := listMax_spec counts hne
  obtain ⟨hmin_mem, hmin_lb⟩ := listMin_spec counts hne
  obtain ⟨hidx_lt, hidx_val, hidx_first⟩ :=
    firstIdxOf_spec (listMax counts) counts hmax_mem
  refine ⟨rfl, hmax_mem, hmax_ub, hmin_mem, hmin_lb, ?_, rfl⟩
  refine ⟨⟨firstIdxOf (listMax counts) counts, hidx_lt⟩, ?_, ?_, ?_⟩
  · rw [List.getD_eq_get counts 0 hidx_lt] at hidx_val
    exact hidx_val
  · show (if firstIdxOf (listMax counts) counts < timestamps.length then
        timestamps.getD (firstIdxOf (listMax counts) counts) 0
      else 0) = timestamps.getD (firstIdxOf (listMax counts) counts) 0
    rw [if_pos (hlen ▸ hidx_lt)]
  · intro j hj
    exact hidx_first j hj

/-- C1: the aggregates of every successfully emitted `AnalysisResult`
are exactly the arithmetic mean, maximum, minimum, first-maximum
timestamp, and `total_count = peak_count` over its per-frame counts. -/
theorem aggregates_exact (inPoly : Int → Int → Bool)
    (cache : List FrameDet) (step : Int) (fps now : Rat)
    (r : AnalysisResult)
    (h : analyze_zone inPoly cache step fps now = Except.ok r) :
    AggregatesSpec r := by
  obtain ⟨h1, h2, h3⟩ := analyze_zone_ok_inv inPoly cache step fps now r h
  have hfs : (1 : Int) ≤ (if step < 1 then 1 else step) := by
    split <;> omega
  obtain ⟨hc, ht⟩ :=
    analyzeLoop_counts inPoly (if step < 1 then 1 else step) hfs cache [] 0
  have hlen :
      (analyzeLoop inPoly (if step < 1 then 1 else step) [] 0
        cache).1.length =
      (analyzeLoop inPoly (if step < 1 then 1 else step) [] 0
        cache).2.1.length := by
    rw [hc, ht]
    simp
  rw [h3]
  exact buildResult_aggregates _ _ _ _ _ _ h2 hlen

/-- Witness for C1 on the one-frame no-detection cache. -/
theorem aggregates_exact_witness :
    analyze_zone (fun _ _ => true) emptyBoxCache 1 10 0 =
      Except.ok emptyBoxResult ∧ AggregatesSpec emptyBoxResult :=
  ⟨by simp [analyze_zone, analyzeLoop, processFrame, collectInZone,
      buildResult, listMean, listMax, listMin, firstIdxOf, emptyBoxCache,
      emptyBoxResult],
   aggregates_exact (fun _ _ => true) emptyBoxCache 1 10 0 emptyBoxResult
     (by simp [analyze_zone, analyzeLoop, processFrame, collectInZone,
       buildResult, listMean, listMax, listMin, firstIdxOf, emptyBoxCache,
       emptyBoxResult])⟩

/-- C5: every emitted record has as many counts as timestamps, and its
`peak_count` is the maximum of a non-empty counts sequence. -/
theorem length_matches_and_peak (inPoly : Int → Int → Bool)
    (cache : List FrameDet) (step : Int) (fps now : Rat)
    (r : AnalysisResult)
    (h : analyze_zone inPoly cache step fps now = Except.ok r) :
    LengthPeakSpec r := by
  obtain ⟨h1, h2, h3⟩ := analyze_zone_ok_inv inPoly cache step fps now r h
  have hfs : (1 : Int) ≤ (if step < 1 then 1 else step) := by
    split <;> omega
  obtain ⟨hc, ht⟩ :=
    analyzeLoop_counts inPoly (if step < 1 then 1 else step) hfs cache [] 0
  have hlen :
      (analyzeLoop inPoly (if step < 1 then 1 else step) [] 0
        cache).1.length =
      (analyzeLoop inPoly (if step < 1 then 1 else step) [] 0
        cache).2.1.length := by
    rw [hc, ht]
    simp
  rw [h3]
  exact ⟨hlen, fun hcne => listMax_spec _ hcne⟩

/-- Witness for C5 on the one-frame no-detection cache. -/
theorem length_matches_and_peak_witness :
    analyze_zone (fun _ _ => true) emptyBoxCache 1 10 0 =
      Except.ok emptyBoxResult ∧ LengthPeakSpec emptyBoxResult :=
  ⟨by simp [analyze_zone, analyzeLoop, processFrame, collectInZone,
      buildResult, listMean, listMax, listMin, firstIdxOf, emptyBoxCache,
      emptyBoxResult],
   length_matches_and_peak (fun _ _ => true) emptyBoxCache 1 10 0
     emptyBoxResult
     (by simp [analyze_zone, analyzeLoop, processFrame, collectInZone,
       buildResult, listMean, listMax, listMin, firstIdxOf, emptyBoxCache,
       emptyBoxResult])⟩

/-- C3: the emitted per-frame counts are, frame by stride-surviving
frame, the number of boxes whose floor-division centroid passes the
polygon test — an instantaneous snapshot per frame, never a cross-frame
sum. -/
theorem per_frame_snapshot (inPoly : Int → Int → Bool)
    (cache : List FrameDet) (step : Int) (fps now : Rat)
    (r : AnalysisResult)
    (h : analyze_zone inPoly cache step fps now = Except.ok r) :
    r.counts_per_frame =
      (keptFrames (if step < 1 then 1 else step) cache).map
        (fun det => (det.boxes.filter
          (fun b => inPoly ((b.x1 + b.x2).fdiv 2)
            ((b.y1 + b.y2).fdiv 2))).length) := by
  obtain ⟨h1, h2, h3⟩ := analyze_zone_ok_inv inPoly cache step fps now r h
  have hfs : (1 : Int) ≤ (if step < 1 then 1 else step) := by
    split <;> omega
  obtain ⟨hc, -⟩ :=
    analyzeLoop_counts inPoly (if step < 1 then 1 else step) hfs cache [] 0
  rw [h3]
  exact hc

/-- Witness for C3 on the one-frame no-detection cache. -/
theorem per_frame_snapshot_witness :
    analyze_zone (fun _ _ => true) emptyBoxCache 1 10 0 =
      Except.ok emptyBoxResult ∧
    emptyBoxResult.counts_per_frame =
      (keptFrames (if (1 : Int) < 1 then 1 else 1) emptyBoxCache).map
        (fun det => (det.boxes.filter
          (fun b => (fun _ _ => true) ((b.x1 + b.x2).fdiv 2)
            ((b.y1 + b.y2).fdiv 2))).length) :=
  ⟨by simp [analyze_zone, analyzeLoop, processFrame, collectInZone,
      buildResult, listMean, listMax, listMin, firstIdxOf, emptyBoxCache,
      emptyBoxResult],
   per_frame_snapshot (fun _ _ => true) emptyBoxCache 1 10 0 emptyBoxResult
     (by simp [analyze_zone, analyzeLoop, processFrame, collectInZone,
       buildResult, listMean, listMax, listMin, firstIdxOf, emptyBoxCache,
       emptyBoxResult])⟩

/-- Stride 1 keeps every cached frame (`frame % 1 == 0` always). -/
lemma keptFrames_one (cache : List FrameDet) :
    keptFrames 1 cache = cache := by
  unfold keptFrames
  apply List.filter_eq_self.mpr
  intro det _
  simp [Int.emod_one]

/-- C4: a frame survives iff its index is divisible by the coerced
stride (stride 1 keeps everything); `NoFramesMatched` fires exactly
when no frame survives; otherwise a result is emitted whose counts
cover every surviving frame — a surviving frame with zero in-zone
boxes contributes a zero count instead of an error. -/
theorem stride_selection (inPoly : Int → Int → Bool)
    (cache : List FrameDet) (step : Int) (fps now : Rat)
    (hne : cache ≠ []) :
    keptFrames 1 cache = cache ∧
    (analyze_zone inPoly cache step fps now =
        Except.error AnalyzeError.NoFramesMatched ↔
      keptFrames (if step < 1 then 1 else step) cache = []) ∧
    (keptFrames (if step < 1 then 1 else step) cache ≠ [] →
      ∃ r, analyze_zone inPoly cache step fps now = Except.ok r ∧
        r.counts_per_frame =
          (keptFrames (if step < 1 then 1 else step) cache).map
            (zoneCount inPoly)) := by
  have hfs : (1 : Int) ≤ (if step < 1 then 1 else step) := by
    split <;> omega
  obtain ⟨hc, -⟩ :=
    analyzeLoop_counts inPoly (if step < 1 then 1 else step) hfs cache [] 0
  refine ⟨keptFrames_one cache, ?_, ?_⟩
  · constructor
    · intro he
      by_contra hk
      have hcne :
          (analyzeLoop inPoly (if step < 1 then 1 else step) [] 0
            cache).1 ≠ [] := by
        rw [hc]
        intro hx
        exact hk (List.map_eq_nil.mp hx)
      simp only [analyze_zone, if_neg hne] at he
      rw [if_neg hcne] at he
      exact absurd he (by simp)
    · intro hk
      have hcnil :
          (analyzeLoop inPoly (if step < 1 then 1 else step) [] 0
            cache).1 = [] := by
        rw [hc, hk]
        rfl
      simp only [analyze_zone, if_neg hne]
      rw [if_pos hcnil]
  · intro hk
    have hcne :
        (analyzeLoop inPoly (if step < 1 then 1 else step) [] 0
          cache).1 ≠ [] := by
      rw [hc]
      intro hx
      exact hk (List.map_eq_nil.mp hx)
    refine ⟨buildResult (if step < 1 then 1 else step) fps now
      (analyzeLoop inPoly (if step < 1 then 1 else step) [] 0 cache).1
      (analyzeLoop inPoly (if step < 1 then 1 else step) [] 0 cache).2.1
      (analyzeLoop inPoly (if step < 1 then 1 else step) [] 0 cache).2.2.1,
      ?_, hc⟩
    simp only [analyze_zone, if_neg hne]
    rw [if_neg hcne]

/-- Witness for C4 on the one-frame no-detection cache. -/
theorem stride_selection_witness :
    emptyBoxCache ≠ [] ∧
    (keptFrames 1 emptyBoxCache = emptyBoxCache ∧
    (analyze_zone (fun _ _ => true) emptyBoxCache 1000 10 0 =
        Except.error AnalyzeError.NoFramesMatched ↔
      keptFrames (if (1000 : Int) < 1 then 1 else 1000) emptyBoxCache = []) ∧
    (keptFrames (if (1000 : Int) < 1 then 1 else 1000) emptyBoxCache ≠ [] →
      ∃ r, analyze_zone (fun _ _ => true) emptyBoxCache 1000 10 0 =
          Except.ok r ∧
        r.counts_per_frame =
          (keptFrames (if (1000 : Int) < 1 then 1 else 1000)
            emptyBoxCache).map (zoneCount (fun _ _ => true)))) :=
  ⟨by simp [emptyBoxCache],
   stride_selection (fun _ _ => true) emptyBoxCache 1000 10 0
     (by simp [emptyBoxCache])⟩

/-- C9: an empty detection cache fails with the `InsufficientData`
condition; no per-frame processing happens and no result is emitted. -/
theorem empty_cache_insufficient_data (inPoly : Int → Int → Bool)
    (step : Int) (fps now : Rat) :
    analyze_zone inPoly [] step fps now =
      Except.error AnalyzeError.InsufficientData := by
  simp [analyze_zone]

/-- C10: a `frame_step` below 1 is silently coerced to 1, yielding
exactly the result of a stride-1 invocation. -/
theorem frame_step_coerced (inPoly : Int → Int → Bool)
    (cache : List FrameDet) (step : Int) (fps now : Rat) (h : step < 1) :
    analyze_zone inPoly cache step fps now =
      analyze_zone inPoly cache 1 fps now := by
  simp only [analyze_zone, if_pos h]
  norm_num

/-- Witness for C10 at `frame_step = 0`. -/
theorem frame_step_coerced_witness :
    ((0 : Int) < 1) ∧
    analyze_zone (fun _ _ => true) emptyBoxCache 0 10 0 =
      analyze_zone (fun _ _ => true) emptyBoxCache 1 10 0 :=
  ⟨by decide,
   frame_step_coerced (fun _ _ => true) emptyBoxCache 0 10 0 (by decide)⟩

/-- C6 (amended): the analysis is deterministic in the cache, polygon
test and stride; two invocations agree on every field except
`analyzed_at`, which `analyze_zone` itself stamps from the wall clock
at result-assembly time. -/
theorem analysis_deterministic (inPoly : Int → Int → Bool)
    (cache : List FrameDet) (step : Int) (fps : Rat) (t1 t2 : Rat) :
    analyze_zone inPoly cache step fps t1 =
      Except.map (fun r => { r with analyzed_at := t1 })
        (analyze_zone inPoly cache step fps t2) := by
  simp only [analyze_zone]
  by_cases h1 : cache = []
  · rw [if_pos h1, if_pos h1]
    rfl
  · rw [if_neg h1, if_neg h1]
    by_cases h2 :
        (analyzeLoop inPoly (if step < 1 then 1 else step) [] 0 cache).1 = []
    · rw [if_pos h2, if_pos h2]
      rfl
    · rw [if_neg h2, if_neg h2]
      simp [Except.map, buildResult]

/-- C6 counterexample: with the wall clock advancing between two calls
on identical inputs, the emitted records are not bit-identical — the
`analyzed_at` stamp is generated inside `analyze_zone`, not supplied by
the caller. -/
theorem analyzed_at_not_caller_supplied :
    analyze_zone (fun _ _ => true) emptyBoxCache 1 10 0 ≠
      analyze_zone (fun _ _ => true) emptyBoxCache 1 10 1 := by
  have h0 : analyze_zone (fun _ _ => true) emptyBoxCache 1 10 0 =
      Except.ok emptyBoxResult := by
    simp [analyze_zone, analyzeLoop, processFrame, collectInZone,
      buildResult, listMean, listMax, listMin, firstIdxOf, emptyBoxCache,
      emptyBoxResult]
  have h1 : analyze_zone (fun _ _ => true) emptyBoxCache 1 10 1 =
      Except.ok { emptyBoxResult with analyzed_at := 1 } := by
    simp [analyze_zone, analyzeLoop, processFrame, collectInZone,
      buildResult, listMean, listMax, listMin, firstIdxOf, emptyBoxCache,
      emptyBoxResult]
  rw [h0, h1]
  intro hc
  have h2 := congrArg AnalysisResult.analyzed_at (Except.ok.inj hc)
  simp only [emptyBoxResult] at h2
  exact absurd h2 (by norm_num)

lemma ids_range_get :
    ∀ (l : List TrackedPerson) (off : Nat),
      l.map TrackedPerson.id = List.range' off l.length →
      ∀ (j : Nat) (hj : j < l.length), (l.get ⟨j, hj⟩).id = off + j := by
  intro l
  induction l with
  | nil =>
    intro off _ j hj
    exact absurd hj (Nat.not_lt_zero j)
  | cons p rest ih =>
    intro off hmap j hj
    simp only [List.map_cons, List.length_cons, List.range'_succ] at hmap
    injection hmap with h1 h2
    cases j with
    | zero =>
      show p.id = off + 0
      omega
    | succ k =>
      have hk : k < rest.length := by
        simp only [List.length_cons] at hj
        omega
      have hrec := ih (off + 1) h2 k hk
      show (rest.get ⟨k, hk⟩).id = off + (k + 1)
      omega

/-- C2: processing one in-zone box matches it to the candidate (a
tracked person seen within the last 10 frame-indices) of maximal IoU
exactly when that IoU strictly exceeds the 0.3 threshold, rewriting
only that record's `last_box`/`last_frame`; otherwise a fresh person
with the next id is appended; and `total_persons_passed` of every
emitted result equals the final value of the allocation counter, i.e.
the number of `TrackedPerson` records ever created in the pass. -/
theorem greedy_matching_spec (box : Box) (f : Nat)
    (persons : List TrackedPerson) (nid : Nat)
    (hids : persons.map TrackedPerson.id = List.range nid) :
    TrackStepSpec box f persons nid ∧
    (∀ (inPoly : Int → Int → Bool) (cache : List FrameDet) (step : Int)
      (fps now : Rat) (r : AnalysisResult),
      analyze_zone inPoly cache step fps now = Except.ok r →
      r.total_persons_passed =
        (analyzeLoop inPoly (if step < 1 then 1 else step) [] 0
          cache).2.2.2) := by
  have hlen : persons.length = nid := by
    have hh := congrArg List.length hids
    simpa using hh
  have hgetid : ∀ (j : Nat) (hj : j < persons.length),
      (persons.get ⟨j, hj⟩).id = 0 + j := by
    apply ids_range_get
    rw [hids, List.range_eq_range', hlen]
  constructor
  · constructor
    · intro hex
      obtain ⟨p, hp, hcp, hgt, hmax, htb⟩ :=
        trackBox_match box f persons nid hex
      obtain ⟨i, hip⟩ := List.mem_iff_get.mp hp
      refine ⟨i, ?_, ?_, ?_, ?_⟩
      · rw [hip]
        exact List.mem_filter.mpr ⟨hp, hcp⟩
      · rw [hip]
        exact hgt
      · intro q hq
        rw [hip]
        exact hmax q hq
      · rw [htb]
        have hpid : p.id = 0 + (i : Nat) := by
          rw [← hip]
          exact hgetid i i.2
        have hset := updatePerson_set_aux box f persons 0 (i : Nat) i.2
          hgetid
        rw [hpid, hset, hip]
    · intro hall
      exact trackBox_nomatch box f persons nid hall
  · intro inPoly cache step fps now r h
    obtain ⟨h1, h2, h3⟩ := analyze_zone_ok_inv inPoly cache step fps now r h
    rw [h3]
    show (analyzeLoop inPoly (if step < 1 then 1 else step) [] 0
        cache).2.2.1.length =
      (analyzeLoop inPoly (if step < 1 then 1 else step) [] 0 cache).2.2.2
    have hids0 : ([] : List TrackedPerson).map TrackedPerson.id =
        List.range 0 := rfl
    have hfin := analyzeLoop_ids inPoly (if step < 1 then 1 else step)
      cache [] 0 hids0
    have hflen := congrArg List.length hfin
    simpa using hflen

/-- Witness for C2: one recent tracked person, fully overlapped by the
incoming box. -/
theorem greedy_matching_spec_witness :
    ([{ id := 0, first_frame := 0, last_frame := 4,
        last_box := { x1 := 0, y1 := 0, x2 := 4, y2 := 4 } }] :
      List TrackedPerson).map TrackedPerson.id = List.range 1 ∧
    (TrackStepSpec { x1 := 0, y1 := 0, x2 := 4, y2 := 4 } 5
      [{ id := 0, first_frame := 0, last_frame := 4,
         last_box := { x1 := 0, y1 := 0, x2 := 4, y2 := 4 } }] 1 ∧
    (∀ (inPoly : Int → Int → Bool) (cache : List FrameDet) (step : Int)
      (fps now : Rat) (r : AnalysisResult),
      analyze_zone inPoly cache step fps now = Except.ok r →
      r.total_persons_passed =
        (analyzeLoop inPoly (if step < 1 then 1 else step) [] 0
          cache).2.2.2)) :=
  ⟨by decide, greedy_matching_spec
    { x1 := 0, y1 := 0, x2 := 4, y2 := 4 } 5
    [{ id := 0, first_frame := 0, last_frame := 4,
       last_box := { x1 := 0, y1 := 0, x2 := 4, y2 := 4 } }] 1
    (by decide)⟩

/-- On `undercountCache` the greedy tracker matches both frame-1 boxes
to the single frame-0 person, so one person is tracked while the peak
count is two. -/
lemma undercount_eval :
    analyze_zone (fun _ _ => true) undercountCache 1 10 0 =
      Except.ok undercountResult := by
  norm_num [analyze_zone, analyzeLoop, processFrame, collectInZone,
    trackBox, matchFold, updatePerson, isCand, centroid_in, calculate_iou,
    iou_threshold, buildResult, listMean, listMax, listMin, firstIdxOf,
    undercountCache, undercountResult]
  rfl

/-- C7: `total_persons_passed` is non-negative and vanishes exactly
when no analyzed box had its centroid in the zone; meanwhile
`total_persons_passed ≥ peak_count` can fail (greedy matching can remap
two same-frame boxes to one person). -/
theorem persons_passed_zero_iff (inPoly : Int → Int → Bool)
    (cache : List FrameDet) (step : Int) (fps now : Rat)
    (r : AnalysisResult)
    (h : analyze_zone inPoly cache step fps now = Except.ok r) :
    PersonsZeroSpec inPoly cache (if step < 1 then 1 else step) r ∧
    (∃ r2, analyze_zone (fun _ _ => true) undercountCache 1 10 0 =
        Except.ok r2 ∧ r2.total_persons_passed < r2.peak_count) := by
  obtain ⟨h1, h2, h3⟩ := analyze_zone_ok_inv inPoly cache step fps now r h
  have hfs : (1 : Int) ≤ (if step < 1 then 1 else step) := by
    split <;> omega
  refine ⟨?_, undercountResult, undercount_eval, by norm_num
    [undercountResult]⟩
  rw [h3]
  refine ⟨Nat.zero_le _, ?_⟩
  show (analyzeLoop inPoly (if step < 1 then 1 else step) [] 0
      cache).2.2.1.length = 0 ↔ _
  constructor
  · intro hlen0 det hdet b hb
    have htr : (analyzeLoop inPoly (if step < 1 then 1 else step) [] 0
        cache).2.2.1 = [] := List.length_eq_zero.mp hlen0
    by_contra hbc
    have hbt : centroid_in inPoly b = true := by
      cases hcb : centroid_in inPoly b with
      | false => exact absurd hcb hbc
      | true => rfl
    have hfil : det.boxes.filter (centroid_in inPoly) ≠ [] := by
      intro hf
      exact (List.filter_eq_nil.mp hf) b hb hbt
    exact analyzeLoop_tracked_ne inPoly (if step < 1 then 1 else step)
      hfs cache [] 0 det hdet hfil htr
  · intro hall
    have hconst := analyzeLoop_tracked_const inPoly
      (if step < 1 then 1 else step) hfs cache [] 0 ?_
    · rw [hconst]
      rfl
    · intro det hdet
      apply List.filter_eq_nil.mpr
      intro b hb
      rw [hall det hdet b hb]
      simp

/-- Witness for C7 on the one-frame no-detection cache. -/
theorem persons_passed_zero_iff_witness :
    analyze_zone (fun _ _ => true) emptyBoxCache 1 10 0 =
      Except.ok emptyBoxResult ∧
    (PersonsZeroSpec (fun _ _ => true) emptyBoxCache
      (if (1 : Int) < 1 then 1 else 1) emptyBoxResult ∧
    (∃ r2, analyze_zone (fun _ _ => true) undercountCache 1 10 0 =
        Except.ok r2 ∧ r2.total_persons_passed < r2.peak_count)) :=
  ⟨by simp [analyze_zone, analyzeLoop, processFrame, collectInZone,
      buildResult, listMean, listMax, listMin, firstIdxOf, emptyBoxCache,
      emptyBoxResult],
   persons_passed_zero_iff (fun _ _ => true) emptyBoxCache 1 10 0
     emptyBoxResult
     (by simp [analyze_zone, analyzeLoop, processFrame, collectInZone,
       buildResult, listMean, listMax, listMin, firstIdxOf, emptyBoxCache,
       emptyBoxResult])⟩

end CrowdCount
